import Mathlib

/-!
Verification of `cli.py` (Debian Packages-index dependency lookup).

Python strings are embedded as `List Char`.  The functions below are
shallow embeddings of the functions in `src/cli.py`, translated clause by
clause; comments cite the source lines they come from.
-/

/-- A Python string, embedded as a list of characters. -/
abbrev PyStr := List Char

/-- Convenience: build a `PyStr` from a Lean string literal. -/
def lit (s : String) : PyStr := s.toList

/-- Python `str.isspace` on the ASCII whitespace characters that
Python's default `str.strip()` removes (the index data is ASCII). -/
def pySpace (c : Char) : Bool :=
  c = ' ' || c = '\t' || c = '\n' || c = '\r' || c = '\x0b' || c = '\x0c'

/-- Python `s.strip()`: drop leading and trailing whitespace. -/
def pyStrip (s : PyStr) : PyStr :=
  ((s.dropWhile pySpace).reverse.dropWhile pySpace).reverse

/-- Python `s.split(sep)` for a single-character separator `sep`
(used for `block.split('\n')` at line 131 and `deps_string.split(',')`
at line 147 of `cli.py`).  `"".split(sep) = [""]` as in Python. -/
def splitOnChar (sep : Char) : PyStr → List PyStr
  | [] => [[]]
  | c :: rest =>
    if c = sep then [] :: splitOnChar sep rest
    else (c :: (splitOnChar sep rest).headI) :: (splitOnChar sep rest).tail

/-- Python `packages_data.split('\n\n')` (line 128 of `cli.py`):
split on non-overlapping occurrences of the two-character separator
`"\n\n"`, scanning left to right. -/
def splitOnNN : PyStr → List PyStr
  | [] => [[]]
  | [c] => [[c]]
  | c :: d :: rest =>
    if c = '\n' ∧ d = '\n' then
      [] :: splitOnNN rest
    else
      (c :: (splitOnNN (d :: rest)).headI) :: (splitOnNN (d :: rest)).tail

/-- One step of the key-value loop of `parse_dependencies`
(lines 135-139 of `cli.py`).  The record state is the pair
(`package_info.get('Package')`, `package_info.get('Depends')`); a later
line overwrites an earlier one, as the Python dict assignment does.
For a line starting with the 9-character prefix `"Package: "` (resp.
`"Depends: "`), Python's `line.split(': ', 1)[1]` is the remainder after
the first occurrence of `": "`; that occurrence is at index 7, inside the
prefix itself, so the remainder is `line[9:]`, embedded as `line.drop 9`. -/
def fieldUpdate (info : Option PyStr × Option PyStr) (line : PyStr) :
    Option PyStr × Option PyStr :=
  if (lit "Package: ").isPrefixOf line then
    (some (pyStrip (line.drop 9)), info.2)
  else if (lit "Depends: ").isPrefixOf line then
    (info.1, some (pyStrip (line.drop 9)))
  else
    info

/-- The `package_info` dictionary built for one block
(lines 131-139 of `cli.py`): split the block on `'\n'` and fold the
key-value loop over the lines. -/
def parseBlock (block : PyStr) : Option PyStr × Option PyStr :=
  (splitOnChar '\n' block).foldl fieldUpdate (none, none)

/-- The value returned for a matching block (lines 143-150 of `cli.py`):
no `Depends` key gives `[]`; otherwise the stored string is split on
`','` and returned unchanged (`[dep for dep in deps_list_raw]` is the
identity). -/
def blockResult (b : PyStr) : Option (List PyStr) :=
  match (parseBlock b).2 with
  | none => some []
  | some d => some (splitOnChar ',' d)

/-- The block loop of `parse_dependencies` (lines 130-153 of `cli.py`):
return the result of the first block whose `Package` field equals the
target; `None` when no block matches. -/
def pd_go (target : PyStr) : List PyStr → Option (List PyStr)
  | [] => none
  | b :: rest =>
    if (parseBlock b).1 = some target then blockResult b
    else pd_go target rest

/-- `parse_dependencies(packages_data, target_package)`
(lines 124-153 of `cli.py`). -/
def parse_dependencies (packages_data target_package : PyStr) :
    Option (List PyStr) :=
  pd_go target_package (splitOnNN packages_data)

/-- Specification-side helper: the first block of the index whose
`Package` field equals the target ("the matching stanza"). -/
def firstMatch (packages_data target_package : PyStr) : Option PyStr :=
  (splitOnNN packages_data).find?
    (fun b => decide ((parseBlock b).1 = some target_package))

/-- Specification-side constructor for claim C6: a text consisting of the
given records separated by blank lines (`"\n\n"`), with no leading or
trailing separator. -/
def joinNN : List PyStr → PyStr
  | [] => []
  | [r] => r
  | r :: rest => r ++ '\n' :: '\n' :: joinNN rest

/-- The URL built in remote mode (lines 87-90 of `cli.py`):
`f"{repo_url}/dists/{distribution}/{component}/binary-{architecture}/Packages.gz"`. -/
def full_url (repo_url distribution component architecture : PyStr) : PyStr :=
  repo_url ++ lit "/dists/" ++ distribution ++ lit "/" ++ component ++
    lit "/binary-" ++ architecture ++ lit "/Packages.gz"

/-- Outcome of `get_packages_data`: either the decoded index text, or the
reported failure of the `except FileNotFoundError` handler
(lines 116-118 of `cli.py`), which identifies the path it could not read. -/
inductive FetchResult where
  | ok (data : PyStr)
  | transportError (path : PyStr)
deriving DecidableEq

/-- The `working_mode` values accepted by `validate_config`
(line 32 of `cli.py`); `loc` stands for `'local'`. -/
inductive Mode where
  | remote
  | loc
  | test
deriving DecidableEq

/-- The `local`/`test` branch of `get_packages_data`
(lines 99-108 and 116-118 of `cli.py`).  The filesystem is embedded as a
map from path to decoded file content (`gzip.open`/`open` followed by
UTF-8 decoding); a path bound to `none` raises `FileNotFoundError`,
which the handler turns into a reported failure naming `repo_url`. -/
def get_packages_data_local (fs : PyStr → Option PyStr) (repo_url : PyStr) :
    FetchResult :=
  match fs repo_url with
  | some content => .ok content
  | none => .transportError repo_url

/-- `get_packages_data` (lines 73-121 of `cli.py`).  The network is
embedded as a map from URL to decoded response body; in remote mode the
index is fetched from `full_url`, in local or test mode it is read from
the local file `repo_url`. -/
def get_packages_data (mode : Mode) (net fs : PyStr → Option PyStr)
    (repo_url distribution component architecture : PyStr) : FetchResult :=
  match mode with
  | .remote =>
    match net (full_url repo_url distribution component architecture) with
    | some content => .ok content
    | none => .transportError (full_url repo_url distribution component architecture)
  | .loc => get_packages_data_local fs repo_url
  | .test => get_packages_data_local fs repo_url

/-! ## Helper lemmas -/

theorem splitOnChar_ne_nil (sep : Char) (s : PyStr) : splitOnChar sep s ≠ [] := by
  cases s with
  | nil => simp [splitOnChar]
  | cons c rest =>
    simp only [splitOnChar]
    split <;> simp

theorem blockResult_isSome (b : PyStr) : ∃ l, blockResult b = some l := by
  unfold blockResult
  cases (parseBlock b).2 <;> exact ⟨_, rfl⟩

theorem blockResult_eq_some_nil_iff (b : PyStr) :
    blockResult b = some [] ↔ (parseBlock b).2 = none := by
  unfold blockResult
  cases h : (parseBlock b).2 with
  | none => simp
  | some d =>
    simp only [Option.some.injEq]
    constructor
    · intro hc
      exact absurd hc (splitOnChar_ne_nil ',' d)
    · intro hc
      cases hc

theorem pd_go_eq_find (target : PyStr) (bs : List PyStr) :
    pd_go target bs =
      Option.elim (bs.find? (fun b => decide ((parseBlock b).1 = some target)))
        none blockResult := by
  induction bs with
  | nil => rfl
  | cons b rest ih =>
    by_cases h : (parseBlock b).1 = some target
    · simp [pd_go, List.find?, h]
    · simp [pd_go, List.find?, h, ih]

theorem pd_eq_firstMatch (data target : PyStr) :
    parse_dependencies data target =
      Option.elim (firstMatch data target) none blockResult :=
  pd_go_eq_find target (splitOnNN data)

theorem pd_go_append (target : PyStr) (bs1 : List PyStr) (b : PyStr)
    (bs2 : List PyStr)
    (h1 : ∀ x ∈ bs1, (parseBlock x).1 ≠ some target)
    (hb : (parseBlock b).1 = some target) :
    pd_go target (bs1 ++ b :: bs2) = blockResult b := by
  induction bs1 with
  | nil => simp [pd_go, hb]
  | cons x xs ih =>
    have hx : (parseBlock x).1 ≠ some target := h1 x (by simp)
    simp only [List.cons_append, pd_go, if_neg hx]
    exact ih (fun y hy => h1 y (by simp [hy]))

/-! ## Claim theorems -/

/-- C1: for every index text and target, the lookup has exactly three
distinguishable outcomes: `none` when no block's `Package` field equals
the target, `some []` when the first matching block has no `Depends`
field, and `some l` with `l ≠ []` when it has one; the not-found outcome
never coincides with the found-empty outcome. -/
theorem dependency_lookup_three_outcomes (data target : PyStr) :
    (parse_dependencies data target = none ↔ firstMatch data target = none) ∧
    (parse_dependencies data target = some [] ↔
      ∃ b, firstMatch data target = some b ∧ (parseBlock b).2 = none) ∧
    ((∃ l, parse_dependencies data target = some l ∧ l ≠ []) ↔
      ∃ b d, firstMatch data target = some b ∧ (parseBlock b).2 = some d) ∧
    ¬(parse_dependencies data target = none ∧
      parse_dependencies data target = some []) := by
  rw [pd_eq_firstMatch]
  cases hfm : firstMatch data target with
  | none => simp
  | some b =>
    simp only [Option.elim, Option.some.injEq]
    obtain ⟨l, hl⟩ := blockResult_isSome b
    refine ⟨?_, ?_, ?_, ?_⟩
    · simp [hl]
    · rw [blockResult_eq_some_nil_iff]
      constructor
      · intro h; exact ⟨b, rfl, h⟩
      · rintro ⟨b', hb', h⟩; rw [hb']; exact h
    · constructor
      · rintro ⟨l', hl', hne⟩
        cases hdep : (parseBlock b).2 with
        | none =>
          exfalso
          apply hne
          have : blockResult b = some [] := blockResult_eq_some_nil_iff b |>.mpr hdep
          rw [this] at hl'
          exact (Option.some.inj hl').symm
        | some d => exact ⟨b, d, rfl, hdep⟩
      · rintro ⟨b', d, hb', hd⟩
        rw [← hb'] at hd
        refine ⟨splitOnChar ',' d, ?_, splitOnChar_ne_nil ',' d⟩
        simp [blockResult, hd]
    · rintro ⟨h1, _⟩
      rw [hl] at h1
      cases h1

/-- C2 counterexample: on a stanza whose `Depends` raw value is
`"a, b,"`, the lookup returns `["a", " b", ""]`, not the
whitespace-stripped `["a", "b", ""]` the claim states: the code never
strips the individual tokens. -/
theorem depends_tokens_not_stripped_cex :
    parse_dependencies (lit "Package: X\nDepends: a, b,") (lit "X") ≠
      some [lit "a", lit "b", lit ""] ∧
    parse_dependencies (lit "Package: X\nDepends: a, b,") (lit "X") =
      some [lit "a", lit " b", lit ""] := by
  constructor
  · decide
  · decide

/-- C2 (amended): when the first matching block stores the `Depends`
value `d` (the raw line remainder with its outer whitespace stripped),
the lookup returns exactly `d` split on `','`, each token kept verbatim
(no per-token whitespace stripping), empty tokens included. -/
theorem depends_split_verbatim (data target b d : PyStr)
    (hfm : firstMatch data target = some b)
    (hdep : (parseBlock b).2 = some d) :
    parse_dependencies data target = some (splitOnChar ',' d) := by
  rw [pd_eq_firstMatch, hfm]
  simp [blockResult, hdep]

theorem depends_split_verbatim_witness :
    (firstMatch (lit "Package: X\nDepends: a, b,") (lit "X") =
        some (lit "Package: X\nDepends: a, b,") ∧
      (parseBlock (lit "Package: X\nDepends: a, b,")).2 = some (lit "a, b,")) ∧
    parse_dependencies (lit "Package: X\nDepends: a, b,") (lit "X") =
      some (splitOnChar ',' (lit "a, b,")) :=
  ⟨by constructor <;> decide,
    depends_split_verbatim (lit "Package: X\nDepends: a, b,") (lit "X")
      (lit "Package: X\nDepends: a, b,") (lit "a, b,") (by decide) (by decide)⟩

/-- C3 counterexample: on the synthetic index the claim's expected value
for target `X` is wrong, because the tokens after the comma keep their
leading space. -/
theorem roundtrip_example_cex :
    parse_dependencies (lit "Package: X\nDepends: a, b, c\n\nPackage: Y\n")
      (lit "X") ≠ some [lit "a", lit "b", lit "c"] := by decide

/-- C3 (amended): on the synthetic index
`"Package: X\nDepends: a, b, c\n\nPackage: Y\n"`, target `X` yields
`["a", " b", " c"]` (comma split, tokens verbatim), target `Y` yields the
empty list (found, no dependencies), and target `Z` yields `none`
(not found). -/
theorem roundtrip_example :
    parse_dependencies (lit "Package: X\nDepends: a, b, c\n\nPackage: Y\n")
      (lit "X") = some [lit "a", lit " b", lit " c"] ∧
    parse_dependencies (lit "Package: X\nDepends: a, b, c\n\nPackage: Y\n")
      (lit "Y") = some [] ∧
    parse_dependencies (lit "Package: X\nDepends: a, b, c\n\nPackage: Y\n")
      (lit "Z") = none := by
  refine ⟨by decide, by decide, by decide⟩

/-- C4: when the block list splits as `bs1 ++ b :: bs2` with no block of
`bs1` matching the target and `b` matching it, the lookup returns `b`'s
result whatever follows: the earliest matching stanza wins and scanning
stops there. -/
theorem first_matching_stanza_wins (data target : PyStr) (bs1 : List PyStr)
    (b : PyStr) (bs2 : List PyStr)
    (hsplit : splitOnNN data = bs1 ++ b :: bs2)
    (h1 : ∀ x ∈ bs1, (parseBlock x).1 ≠ some target)
    (hb : (parseBlock b).1 = some target) :
    parse_dependencies data target = blockResult b := by
  unfold parse_dependencies
  rw [hsplit]
  exact pd_go_append target bs1 b bs2 h1 hb

theorem first_matching_stanza_wins_witness :
    (splitOnNN (lit "Package: X\nDepends: a\n\nPackage: X\nDepends: b") =
        [] ++ lit "Package: X\nDepends: a" :: [lit "Package: X\nDepends: b"]) ∧
    parse_dependencies (lit "Package: X\nDepends: a\n\nPackage: X\nDepends: b")
        (lit "X") = blockResult (lit "Package: X\nDepends: a") :=
  ⟨by decide,
    first_matching_stanza_wins
      (lit "Package: X\nDepends: a\n\nPackage: X\nDepends: b") (lit "X")
      [] (lit "Package: X\nDepends: a") [lit "Package: X\nDepends: b"]
      (by decide) (by decide) (by decide)⟩

/-- C7 counterexample: for the line `"Depends: a "` the claim predicts
the stored value `"a "` (only one leading space of the remainder may be
stripped, trailing whitespace preserved), but the code applies a full
`strip()` and stores `"a"`. -/
theorem field_value_fully_stripped_cex :
    fieldUpdate (none, none) (lit "Depends: a ") = (none, some (lit "a")) ∧
    some (lit "a") ≠ some (lit "a ") := by
  constructor
  · decide
  · decide

/-- C7 (amended): for a line with a recognized field prefix, the stored
value is the remainder of the line after the first `": "` with all
leading and trailing whitespace stripped (Python `strip()`), not just one
leading space. -/
theorem field_value_is_stripped_remainder (info : Option PyStr × Option PyStr)
    (rest : PyStr) :
    fieldUpdate info (lit "Package: " ++ rest) = (some (pyStrip rest), info.2) ∧
    fieldUpdate info (lit "Depends: " ++ rest) = (info.1, some (pyStrip rest)) := by
  have hP : lit "Package: " = ['P','a','c','k','a','g','e',':',' '] := rfl
  have hD : lit "Depends: " = ['D','e','p','e','n','d','s',':',' '] := rfl
  have h1 : (lit "Package: ").isPrefixOf (lit "Package: " ++ rest) = true := by
    rw [hP]; simp [List.isPrefixOf]
  have h2 : (lit "Package: ").isPrefixOf (lit "Depends: " ++ rest) = false := by
    rw [hP, hD]; simp [List.isPrefixOf]
  have h3 : (lit "Depends: ").isPrefixOf (lit "Depends: " ++ rest) = true := by
    rw [hD]; simp [List.isPrefixOf]
  have hd9P : (lit "Package: " ++ rest).drop 9 = rest := List.drop_left' rfl
  have hd9D : (lit "Depends: " ++ rest).drop 9 = rest := List.drop_left' rfl
  constructor
  · unfold fieldUpdate
    rw [h1]
    simp [hd9P]
  · unfold fieldUpdate
    rw [h2, h3]
    simp [hd9D]

/-- C9: a block whose field map holds no `Package` entry never matches
any target; in particular when every block of the text lacks a `Package`
field (for example the empty text), the lookup returns `none` for every
target. -/
theorem no_package_field_never_matches (data target : PyStr)
    (h : ∀ b ∈ splitOnNN data, (parseBlock b).1 = none) :
    parse_dependencies data target = none := by
  unfold parse_dependencies
  rw [pd_go_eq_find]
  have hfind : (splitOnNN data).find?
      (fun b => decide ((parseBlock b).1 = some target)) = none := by
    rw [List.find?_eq_none]
    intro x hx
    simp [h x hx]
  rw [hfind]
  rfl

theorem no_package_field_never_matches_witness :
    (∀ b ∈ splitOnNN (lit ""), (parseBlock b).1 = none) ∧
    parse_dependencies (lit "") (lit "Z") = none :=
  ⟨by decide, no_package_field_never_matches (lit "") (lit "Z") (by decide)⟩

/-- C10: when the first matching block stores the empty string as its
`Depends` value (a `"Depends: "` line with no value), the lookup returns
the one-element list `[""]`, not the empty list. -/
theorem empty_depends_value_gives_singleton (data target b : PyStr)
    (hfm : firstMatch data target = some b)
    (hdep : (parseBlock b).2 = some []) :
    parse_dependencies data target = some [[]] := by
  rw [pd_eq_firstMatch, hfm]
  simp [blockResult, hdep, splitOnChar]

theorem empty_depends_value_gives_singleton_witness :
    (firstMatch (lit "Package: X\nDepends: ") (lit "X") =
        some (lit "Package: X\nDepends: ") ∧
      (parseBlock (lit "Package: X\nDepends: ")).2 = some []) ∧
    parse_dependencies (lit "Package: X\nDepends: ") (lit "X") = some [[]] :=
  ⟨by constructor <;> decide,
    empty_depends_value_gives_singleton (lit "Package: X\nDepends: ") (lit "X")
      (lit "Package: X\nDepends: ") (by decide) (by decide)⟩

/-- C5: in remote mode the fetched location is the base joined with the
fixed template `dists/{distribution}/{component}/binary-{architecture}/Packages.gz`;
on the spec's example inputs it is exactly
`http://example.test/repo/dists/stable/main/binary-amd64/Packages.gz`,
and for all inputs the base is a prefix of the location and
`/Packages.gz` its suffix. -/
theorem remote_url_template :
    full_url (lit "http://example.test/repo") (lit "stable") (lit "main")
        (lit "amd64") =
      lit "http://example.test/repo/dists/stable/main/binary-amd64/Packages.gz" ∧
    ∀ repo dist comp arch : PyStr,
      repo <+: full_url repo dist comp arch ∧
      lit "/Packages.gz" <:+ full_url repo dist comp arch := by
  refine ⟨by decide, fun repo dist comp arch => ⟨?_, ?_⟩⟩
  · refine ⟨lit "/dists/" ++ dist ++ lit "/" ++ comp ++ lit "/binary-" ++
      arch ++ lit "/Packages.gz", ?_⟩
    simp [full_url, List.append_assoc]
  · exact ⟨repo ++ lit "/dists/" ++ dist ++ lit "/" ++ comp ++
      lit "/binary-" ++ arch, rfl⟩

/-- C8: in local or test mode, when the filesystem has no file at the
given path, `get_packages_data` yields the reported failure identifying
that path, and never a success outcome (in particular never an empty
index text treated as success). -/
theorem missing_local_file_is_transport_error (mode : Mode)
    (net fs : PyStr → Option PyStr)
    (repo_url distribution component architecture : PyStr)
    (hmode : mode = Mode.loc ∨ mode = Mode.test)
    (hmissing : fs repo_url = none) :
    get_packages_data mode net fs repo_url distribution component architecture =
      FetchResult.transportError repo_url ∧
    ∀ d, get_packages_data mode net fs repo_url distribution component
      architecture ≠ FetchResult.ok d := by
  have hloc : get_packages_data mode net fs repo_url distribution component
      architecture = get_packages_data_local fs repo_url := by
    rcases hmode with h | h <;> subst h <;> rfl
  rw [hloc]
  unfold get_packages_data_local
  rw [hmissing]
  exact ⟨rfl, fun d h => FetchResult.noConfusion h⟩

theorem missing_local_file_is_transport_error_witness :
    ((Mode.loc = Mode.loc ∨ Mode.loc = Mode.test) ∧
      (fun _ : PyStr => (none : Option PyStr)) (lit "packages.gz") = none) ∧
    (get_packages_data Mode.loc (fun _ => none) (fun _ => none)
        (lit "packages.gz") (lit "") (lit "") (lit "") =
      FetchResult.transportError (lit "packages.gz") ∧
    ∀ d, get_packages_data Mode.loc (fun _ => none) (fun _ => none)
        (lit "packages.gz") (lit "") (lit "") (lit "") ≠ FetchResult.ok d) :=
  ⟨⟨Or.inl rfl, rfl⟩,
    missing_local_file_is_transport_error Mode.loc (fun _ => none)
      (fun _ => none) (lit "packages.gz") (lit "") (lit "") (lit "")
      (Or.inl rfl) rfl⟩

theorem splitOnNN_of_not_infix :
    ∀ r : PyStr, ¬(['\n', '\n'] <:+: r) → splitOnNN r = [r] := by
  intro r
  induction r with
  | nil => intro _; rfl
  | cons c tl ih =>
    intro h
    cases tl with
    | nil => rfl
    | cons d rest =>
      have hcd : ¬(c = '\n' ∧ d = '\n') := by
        rintro ⟨rfl, rfl⟩
        exact h ⟨[], rest, rfl⟩
      have htl : ¬(['\n', '\n'] <:+: (d :: rest)) :=
        fun hi => h (List.infix_cons hi)
      simp only [splitOnNN]
      rw [if_neg hcd, ih htl]
      rfl

theorem splitOnNN_append_sep :
    ∀ r t : PyStr, ¬(['\n', '\n'] <:+: r) → r.getLast? ≠ some '\n' →
      splitOnNN (r ++ '\n' :: '\n' :: t) = r :: splitOnNN t := by
  intro r
  induction r with
  | nil =>
    intro t _ _
    show splitOnNN ('\n' :: '\n' :: t) = [] :: splitOnNN t
    simp only [splitOnNN]
    rw [if_pos ⟨trivial, trivial⟩]
  | cons c tl ih =>
    intro t hnn hlast
    cases tl with
    | nil =>
      have hc : c ≠ '\n' := by
        intro hc
        exact hlast (by rw [hc]; rfl)
      show splitOnNN (c :: '\n' :: '\n' :: t) = [c] :: splitOnNN t
      simp only [splitOnNN]
      rw [if_neg (fun hp => hc hp.1), if_pos ⟨trivial, trivial⟩]
      rfl
    | cons d tl2 =>
      have hcd : ¬(c = '\n' ∧ d = '\n') := by
        rintro ⟨rfl, rfl⟩
        exact hnn ⟨[], tl2, rfl⟩
      have htl : ¬(['\n', '\n'] <:+: (d :: tl2)) :=
        fun hi => hnn (List.infix_cons hi)
      have hlast2 : (d :: tl2).getLast? ≠ some '\n' := by
        rw [← List.getLast?_cons_cons (a := c)]
        exact hlast
      have hrec := ih t htl hlast2
      show splitOnNN (c :: d :: (tl2 ++ '\n' :: '\n' :: t)) =
        (c :: d :: tl2) :: splitOnNN t
      simp only [splitOnNN]
      rw [if_neg hcd]
      have hassoc : (d :: (tl2 ++ '\n' :: '\n' :: t)) =
          (d :: tl2) ++ '\n' :: '\n' :: t := rfl
      rw [hassoc, hrec]
      rfl

theorem splitOnNN_joinNN :
    ∀ rs : List PyStr, rs ≠ [] →
      (∀ r ∈ rs, ¬(['\n', '\n'] <:+: r)) →
      (∀ r ∈ rs.dropLast, r.getLast? ≠ some '\n') →
      splitOnNN (joinNN rs) = rs := by
  intro rs
  induction rs with
  | nil => intro h; exact absurd rfl h
  | cons r tl ih =>
    intro _ hnn hlast
    cases tl with
    | nil =>
      show splitOnNN (joinNN [r]) = [r]
      exact splitOnNN_of_not_infix r (hnn r (by simp))
    | cons r2 tl2 =>
      have hjoin : joinNN (r :: r2 :: tl2) = r ++ '\n' :: '\n' :: joinNN (r2 :: tl2) := rfl
      rw [hjoin]
      rw [splitOnNN_append_sep r (joinNN (r2 :: tl2)) (hnn r (by simp))
        (hlast r (by simp [List.dropLast]))]
      rw [ih (by simp) (fun x hx => hnn x (by simp [hx]))
        (fun x hx => hlast x (by simp [List.dropLast, hx]))]

theorem joinNN_append_single :
    ∀ (rs : List PyStr) (x : PyStr), rs ≠ [] →
      joinNN (rs ++ [x]) = joinNN rs ++ '\n' :: '\n' :: x := by
  intro rs
  induction rs with
  | nil => intro x h; exact absurd rfl h
  | cons r tl ih =>
    intro x _
    cases tl with
    | nil => rfl
    | cons r2 tl2 =>
      show joinNN (r :: (r2 :: tl2) ++ [x]) = (r ++ '\n' :: '\n' :: joinNN (r2 :: tl2)) ++ '\n' :: '\n' :: x
      have h1 : joinNN (r :: ((r2 :: tl2) ++ [x])) =
          r ++ '\n' :: '\n' :: joinNN ((r2 :: tl2) ++ [x]) := rfl
      rw [List.cons_append, h1, ih x (by simp)]
      simp [List.append_assoc]

/-- C6: a text made of N non-empty records separated by blank lines
(records containing no blank line and not ending in a line break) splits
into exactly those N stanzas; with a leading and trailing separator
added, the same N stanzas remain after discarding the empty edge
artifacts. -/
theorem blank_separated_records_give_n_stanzas (rs : List PyStr)
    (hne : rs ≠ [])
    (h : ∀ r ∈ rs, r ≠ [] ∧ ¬(['\n', '\n'] <:+: r) ∧ r.getLast? ≠ some '\n') :
    splitOnNN (joinNN rs) = rs ∧
    (splitOnNN (joinNN rs)).length = rs.length ∧
    (splitOnNN ('\n' :: '\n' :: (joinNN rs ++ ['\n', '\n']))).filter
      (fun b => !b.isEmpty) = rs := by
  obtain ⟨r0, rs0, rfl⟩ := List.exists_cons_of_ne_nil hne
  have hmain : splitOnNN (joinNN (r0 :: rs0)) = r0 :: rs0 :=
    splitOnNN_joinNN (r0 :: rs0) hne (fun r hr => (h r hr).2.1)
      (fun r hr => (h r (List.dropLast_subset _ hr)).2.2)
  refine ⟨hmain, by rw [hmain], ?_⟩
  have hext : ('\n' :: '\n' :: (joinNN (r0 :: rs0) ++ ['\n', '\n'])) =
      joinNN ((([] : PyStr) :: (r0 :: rs0)) ++ [([] : PyStr)]) := by
    have h1 : joinNN ((([] : PyStr) :: (r0 :: rs0)) ++ [([] : PyStr)]) =
        [] ++ '\n' :: '\n' :: joinNN ((r0 :: rs0) ++ [([] : PyStr)]) := rfl
    rw [h1, joinNN_append_single (r0 :: rs0) [] (by simp)]
    rfl
  rw [hext]
  have c1 : ∀ r ∈ (([] : PyStr) :: (r0 :: rs0)) ++ [([] : PyStr)],
      ¬(['\n', '\n'] <:+: r) := by
    intro r hr
    have hmem : r = [] ∨ r ∈ r0 :: rs0 := by
      rcases List.mem_append.mp hr with hr1 | hr1
      · rcases List.mem_cons.mp hr1 with rfl | hr2
        · exact Or.inl rfl
        · exact Or.inr hr2
      · exact Or.inl (List.mem_singleton.mp hr1)
    rcases hmem with rfl | hmem
    · decide
    · exact (h r hmem).2.1
  have c2 : ∀ r ∈ ((([] : PyStr) :: (r0 :: rs0)) ++ [([] : PyStr)]).dropLast,
      r.getLast? ≠ some '\n' := by
    rw [List.dropLast_concat]
    intro r hr
    rcases List.mem_cons.mp hr with rfl | hmem
    · simp
    · exact (h r hmem).2.2
  rw [splitOnNN_joinNN ((([] : PyStr) :: (r0 :: rs0)) ++ [([] : PyStr)])
    (by simp) c1 c2]
  rw [List.filter_append, List.filter_cons]
  have hfself : (r0 :: rs0).filter (fun b => !b.isEmpty) = r0 :: rs0 :=
    List.filter_eq_self.mpr (fun a ha => by
      simp only [Bool.not_eq_true', ← List.isEmpty_iff] at *
      simp [List.isEmpty_iff, (h a ha).1])
  simp [hfself]


theorem blank_separated_records_give_n_stanzas_witness :
    (([lit "Package: X", lit "Package: Y"] : List PyStr) ≠ [] ∧
      ∀ r ∈ ([lit "Package: X", lit "Package: Y"] : List PyStr),
        r ≠ [] ∧ ¬(['\n', '\n'] <:+: r) ∧ r.getLast? ≠ some '\n') ∧
    (splitOnNN (joinNN [lit "Package: X", lit "Package: Y"]) =
        [lit "Package: X", lit "Package: Y"] ∧
      (splitOnNN (joinNN [lit "Package: X", lit "Package: Y"])).length =
        ([lit "Package: X", lit "Package: Y"] : List PyStr).length ∧
      (splitOnNN ('\n' :: '\n' ::
          (joinNN [lit "Package: X", lit "Package: Y"] ++ ['\n', '\n']))).filter
        (fun b => !b.isEmpty) = [lit "Package: X", lit "Package: Y"]) :=
  ⟨⟨by decide, by decide⟩,
    blank_separated_records_give_n_stanzas [lit "Package: X", lit "Package: Y"]
      (by decide) (by decide)⟩
